import Mathlib

/-!
Shallow embedding of the BTC/JPY arbitrage engine of this repository:
the fee model (`FeeCalculator`, fees.js) and the fee-aware opportunity
detector (`ArbitrageDetector`, arbitrage.js).  JavaScript numbers are
modelled as rationals, missing fields as `Option`, and the wall-clock
reading taken by `getJapanTime()` is passed in as an explicit `now`
parameter.  The database handle of the detector only triggers
fire-and-forget persistence and never affects the returned list, so it
is not modelled.
-/

namespace BtcArb

/-- One exchange's BTC/JPY snapshot as handed to the detector.
`bid`/`ask` are `none` when the exchange did not report them. -/
structure Quote where
  exchange : String
  bid : Option ℚ
  ask : Option ℚ
  deriving DecidableEq

/-- JavaScript truthiness of a possibly-missing numeric field:
`undefined`/`null` and `0` are falsy, every other number is truthy. -/
def truthy : Option ℚ → Bool
  | none => false
  | some v => v != 0

/-- Numeric value of a possibly-missing field (JS reads the number directly;
only meaningful under `truthy`). -/
def oget (v : Option ℚ) : ℚ := v.getD 0

/-- Maker/taker rate pair of one exchange. -/
structure TradingFeeRates where
  maker : ℚ
  taker : ℚ
  deriving DecidableEq

/-- Fixed withdrawal fees of one exchange. -/
structure WithdrawalFees where
  jpy : ℚ
  btc : ℚ
  deriving DecidableEq

/-- Per-exchange fee schedule entry of the `FeeCalculator` table. -/
structure FeeSchedule where
  tradingFee : TradingFeeRates
  withdrawalFee : WithdrawalFees
  deriving DecidableEq

/-- The hardcoded `this.exchangeFees` table of `FeeCalculator`.  bitFlyer's
bank-specific `jpySMBC` entry (330) is omitted: no function of the
repository reads it. -/
def exchangeFees (exchange : String) : Option FeeSchedule :=
  if exchange = "bitFlyer" then some ⟨⟨0.0001, 0.0015⟩, ⟨550, 0.0004⟩⟩
  else if exchange = "Coincheck" then some ⟨⟨0, 0⟩, ⟨407, 0.0005⟩⟩
  else if exchange = "Zaif" then some ⟨⟨0, 0.0010⟩, ⟨385, 0.0001⟩⟩
  else if exchange = "GMOコイン" then some ⟨⟨-0.0001, 0.0005⟩, ⟨0, 0⟩⟩
  else if exchange = "bitbank" then some ⟨⟨-0.0002, 0.0012⟩, ⟨550, 0.0006⟩⟩
  else if exchange = "BITPoint" then some ⟨⟨0, 0⟩, ⟨0, 0⟩⟩
  else none

/-- Approximate Bitcoin network fee, `this.networkFee`. -/
def networkFee : ℚ := 0.0001

/-- The two currency keys `getWithdrawalFee` is called with. -/
inductive Currency
  | jpy
  | btc
  deriving DecidableEq

/-- `getTradingFee`: table lookup with the documented fallback
`{maker: 0.001, taker: 0.001}` for an unknown exchange. -/
def getTradingFee (exchange : String) : TradingFeeRates :=
  match exchangeFees exchange with
  | none => ⟨0.001, 0.001⟩
  | some fees => ⟨fees.tradingFee.maker, fees.tradingFee.taker⟩

/-- `getWithdrawalFee`: table lookup with fallback 500 JPY / 0.0005 BTC for
an unknown exchange.  The source's trailing `|| 0` is the identity on the
table's numeric entries. -/
def getWithdrawalFee (exchange : String) (currency : Currency) : ℚ :=
  match exchangeFees exchange with
  | none => match currency with
    | .jpy => 500
    | .btc => 0.0005
  | some fees => match currency with
    | .jpy => fees.withdrawalFee.jpy
    | .btc => fees.withdrawalFee.btc

/-- Trade side passed to `calculateTradingCosts`. -/
inductive Side
  | buy
  | sell
  deriving DecidableEq

/-- Order type passed to `calculateTradingCosts`. -/
inductive OrderType
  | maker
  | taker
  deriving DecidableEq

/-- Result record of `calculateTradingCosts`. -/
structure TradingCosts where
  tradeValue : ℚ
  feeRate : ℚ
  tradingFee : ℚ
  netValue : ℚ
  deriving DecidableEq

/-- `calculateTradingCosts(exchange, amount, price, side, orderType)`. -/
def calculateTradingCosts (exchange : String) (amount price : ℚ)
    (side : Side) (orderType : OrderType) : TradingCosts :=
  let tradingFees := getTradingFee exchange
  let feeRate := match orderType with
    | .maker => tradingFees.maker
    | .taker => tradingFees.taker
  let tradeValue := amount * price
  let tradingFee := |tradeValue * feeRate|
  { tradeValue := tradeValue
    feeRate := feeRate
    tradingFee := tradingFee
    netValue := match side with
      | .buy => tradeValue + tradingFee
      | .sell => tradeValue - tradingFee }

/-- Buy-side half of the `costBreakdown` record. -/
structure BuySideBreakdown where
  exchange : String
  tradingFee : ℚ
  feeRate : ℚ
  btcWithdrawalFee : ℚ
  deriving DecidableEq

/-- Sell-side half of the `costBreakdown` record. -/
structure SellSideBreakdown where
  exchange : String
  tradingFee : ℚ
  feeRate : ℚ
  jpyWithdrawalFee : ℚ
  deriving DecidableEq

/-- The `costBreakdown` record returned by `calculateArbitrageCosts`. -/
structure CostBreakdown where
  buyExchange : BuySideBreakdown
  sellExchange : SellSideBreakdown
  networkFee : ℚ
  deriving DecidableEq

/-- The `totalCosts` record returned by `calculateArbitrageCosts`. -/
structure TotalCosts where
  buyTradingFee : ℚ
  sellTradingFee : ℚ
  jpyWithdrawalFee : ℚ
  btcTransferCost : ℚ
  total : ℚ
  deriving DecidableEq

/-- Full result record of `calculateArbitrageCosts`. -/
structure ArbitrageCosts where
  grossProfit : ℚ
  netProfit : ℚ
  profitReduction : ℚ
  totalCosts : TotalCosts
  costBreakdown : CostBreakdown
  deriving DecidableEq

/-- `calculateArbitrageCosts(buyExchange, sellExchange, amount, buyPrice,
sellPrice)`: taker trading costs of both legs, sell-side JPY withdrawal
fee, and the BTC transfer cost valued in JPY at the buy price. -/
def calculateArbitrageCosts (buyExchange sellExchange : String)
    (amount buyPrice sellPrice : ℚ) : ArbitrageCosts :=
  let buyCosts := calculateTradingCosts buyExchange amount buyPrice .buy .taker
  let sellCosts := calculateTradingCosts sellExchange amount sellPrice .sell .taker
  let jpyWithdrawalFee := getWithdrawalFee sellExchange .jpy
  let btcWithdrawalFee := getWithdrawalFee buyExchange .btc
  let totalBuyCost := buyCosts.netValue
  let totalSellRevenue := sellCosts.netValue - jpyWithdrawalFee
  let btcTransferCost := (btcWithdrawalFee + networkFee) * buyPrice
  let grossProfit := sellPrice * amount - buyPrice * amount
  let netProfit := totalSellRevenue - totalBuyCost - btcTransferCost
  let profitReduction := grossProfit - netProfit
  { grossProfit := grossProfit
    netProfit := netProfit
    profitReduction := profitReduction
    totalCosts :=
      { buyTradingFee := buyCosts.tradingFee
        sellTradingFee := sellCosts.tradingFee
        jpyWithdrawalFee := jpyWithdrawalFee
        btcTransferCost := btcTransferCost
        total := buyCosts.tradingFee + sellCosts.tradingFee +
          jpyWithdrawalFee + btcTransferCost }
    costBreakdown :=
      { buyExchange :=
          { exchange := buyExchange
            tradingFee := buyCosts.tradingFee
            feeRate := buyCosts.feeRate
            btcWithdrawalFee := btcWithdrawalFee * buyPrice }
        sellExchange :=
          { exchange := sellExchange
            tradingFee := sellCosts.tradingFee
            feeRate := sellCosts.feeRate
            jpyWithdrawalFee := jpyWithdrawalFee }
        networkFee := networkFee * buyPrice } }

/-- One record pushed onto `opportunities` by the detector. -/
structure Opportunity where
  exchangeFrom : String
  exchangeTo : String
  priceFrom : ℚ
  priceTo : ℚ
  bidFrom : Option ℚ
  askFrom : Option ℚ
  bidTo : Option ℚ
  askTo : Option ℚ
  priceDifference : ℚ
  percentageDifference : ℚ
  timestamp : String
  profit : ℚ
  netProfit : ℚ
  netProfitPercentage : ℚ
  totalFees : ℚ
  feeBreakdown : CostBreakdown
  isProfitableAfterFees : Bool
  deriving DecidableEq

/-- The detector's hardcoded `this.threshold = 0.1` (percent). -/
def threshold : ℚ := 0.1

/-- The opportunity record the detector builds for the direction that buys
at `buyQ`'s ask and sells at `sellQ`'s bid, with clock reading `now`. -/
def mkOpportunity (now : String) (buyQ sellQ : Quote) : Opportunity :=
  let priceDiff := oget sellQ.bid - oget buyQ.ask
  let percentageDiff := priceDiff / oget buyQ.ask * 100
  let feeAnalysis := calculateArbitrageCosts buyQ.exchange sellQ.exchange 1
    (oget buyQ.ask) (oget sellQ.bid)
  let netProfitPercentage := feeAnalysis.netProfit / oget buyQ.ask * 100
  { exchangeFrom := buyQ.exchange
    exchangeTo := sellQ.exchange
    priceFrom := oget buyQ.ask
    priceTo := oget sellQ.bid
    bidFrom := buyQ.bid
    askFrom := buyQ.ask
    bidTo := sellQ.bid
    askTo := sellQ.ask
    priceDifference := priceDiff
    percentageDifference := percentageDiff
    timestamp := now
    profit := priceDiff
    netProfit := feeAnalysis.netProfit
    netProfitPercentage := netProfitPercentage
    totalFees := feeAnalysis.totalCosts.total
    feeBreakdown := feeAnalysis.costBreakdown
    isProfitableAfterFees := decide (0 < feeAnalysis.netProfit) }

/-- One direction of the pair check inside the double loop: the truthiness
and price guard, then the inclusive percentage gate. -/
def evalDirection (now : String) (buyQ sellQ : Quote) : List Opportunity :=
  if truthy buyQ.ask && truthy sellQ.bid &&
      decide (oget buyQ.ask < oget sellQ.bid) then
    let priceDiff := oget sellQ.bid - oget buyQ.ask
    let percentageDiff := priceDiff / oget buyQ.ask * 100
    if threshold ≤ percentageDiff then [mkOpportunity now buyQ sellQ] else []
  else []

/-- All index pairs `(i, j)` with `i < j`, in the visit order of the
detector's nested `for` loops. -/
def allPairs : List α → List (α × α)
  | [] => []
  | x :: xs => (xs.map fun y => (x, y)) ++ allPairs xs

/-- The unsorted `opportunities` array: for each loop pair both directions
are checked in order. -/
def detectRaw (now : String) (prices : List Quote) : List Opportunity :=
  (allPairs prices).flatMap fun p =>
    evalDirection now p.1 p.2 ++ evalDirection now p.2 p.1

/-- The final `sort` comparator as a total preorder: ascending in
`(b.isProfitableAfterFees - a.isProfitableAfterFees, b.netProfit - a.netProfit)`,
so profitable-after-fees first, then net profit descending. -/
def oppLe (a b : Opportunity) : Prop :=
  if a.isProfitableAfterFees = b.isProfitableAfterFees then
    b.netProfit ≤ a.netProfit
  else a.isProfitableAfterFees = true

instance : DecidableRel oppLe := fun a b => by
  unfold oppLe; infer_instance

instance : IsTotal Opportunity oppLe where
  total a b := by
    unfold oppLe
    by_cases h : a.isProfitableAfterFees = b.isProfitableAfterFees
    · rw [if_pos h, if_pos h.symm]
      exact le_total b.netProfit a.netProfit
    · rw [if_neg h, if_neg (fun hh => h hh.symm)]
      cases ha : a.isProfitableAfterFees <;> cases hb : b.isProfitableAfterFees <;>
        simp_all

instance : IsTrans Opportunity oppLe where
  trans a b c hab hbc := by
    unfold oppLe at *
    by_cases h1 : a.isProfitableAfterFees = b.isProfitableAfterFees <;>
      by_cases h2 : b.isProfitableAfterFees = c.isProfitableAfterFees
    · rw [if_pos h1] at hab
      rw [if_pos h2] at hbc
      rw [if_pos (h1.trans h2)]
      exact le_trans hbc hab
    · rw [if_neg h2] at hbc
      rw [if_neg (fun h => h2 (h1.symm.trans h))]
      exact h1.trans hbc
    · rw [if_neg h1] at hab
      rw [if_neg (fun h => h1 (h.trans h2.symm))]
      exact hab
    · rw [if_neg h1] at hab
      rw [if_neg h2] at hbc
      exact absurd (hab.trans hbc.symm) h1

/-- `detectArbitrageOpportunities(prices)` at clock reading `now`: the
length guard, the double loop, then the stable sort by the comparator
(JS `Array.prototype.sort` is stable, so its result is the unique stable
order under the comparator's total preorder, which `insertionSort` with
`oppLe` computes). -/
def detectArbitrageOpportunities (now : String) (prices : List Quote) :
    List Opportunity :=
  if prices.length < 2 then []
  else List.insertionSort oppLe (detectRaw now prices)

/-- A quote that contributes a usable price field at all: JS truthiness of
its bid or of its ask. -/
def usable (q : Quote) : Bool := truthy q.bid || truthy q.ask

/-- `clearTimestamp` erases the only field of an opportunity that records
the wall clock rather than the inputs. -/
def clearTimestamp (o : Opportunity) : Opportunity := { o with timestamp := "" }

/-! ### Helper lemmas about the detector -/

theorem truthy_iff {v : Option ℚ} : truthy v = true ↔ v.isSome = true ∧ oget v ≠ 0 := by
  cases v <;> simp [truthy, oget]

theorem oget_ne_zero_of_truthy {v : Option ℚ} (h : truthy v = true) : oget v ≠ 0 :=
  (truthy_iff.1 h).2

theorem evalDirection_eq_pos (now : String) {buyQ sellQ : Quote}
    (h1 : truthy buyQ.ask = true) (h2 : truthy sellQ.bid = true)
    (h3 : oget buyQ.ask < oget sellQ.bid)
    (h4 : threshold ≤ (oget sellQ.bid - oget buyQ.ask) / oget buyQ.ask * 100) :
    evalDirection now buyQ sellQ = [mkOpportunity now buyQ sellQ] := by
  unfold evalDirection
  rw [h1, h2, decide_eq_true h3]
  simp [h4]

theorem mem_evalDirection {o : Opportunity} {now : String} {buyQ sellQ : Quote}
    (h : o ∈ evalDirection now buyQ sellQ) :
    truthy buyQ.ask = true ∧ truthy sellQ.bid = true ∧
      oget buyQ.ask < oget sellQ.bid ∧
      threshold ≤ (oget sellQ.bid - oget buyQ.ask) / oget buyQ.ask * 100 ∧
      o = mkOpportunity now buyQ sellQ := by
  unfold evalDirection at h
  by_cases hc : (truthy buyQ.ask && truthy sellQ.bid &&
      decide (oget buyQ.ask < oget sellQ.bid)) = true
  · rw [if_pos hc] at h
    simp only [Bool.and_eq_true, decide_eq_true_eq] at hc
    by_cases hg : threshold ≤ (oget sellQ.bid - oget buyQ.ask) / oget buyQ.ask * 100
    · rw [if_pos hg] at h
      exact ⟨hc.1.1, hc.1.2, hc.2, hg, List.mem_singleton.1 h⟩
    · rw [if_neg hg] at h
      exact absurd h (List.not_mem_nil o)
  · rw [if_neg hc] at h
    exact absurd h (List.not_mem_nil o)

theorem sublist_pair_mem_allPairs {x y : α} :
    ∀ {l : List α}, [x, y].Sublist l → (x, y) ∈ allPairs l := by
  intro l h
  induction l with
  | nil => exact absurd (h.length_le) (by simp)
  | cons c l ih =>
    cases h with
    | cons a h =>
      exact List.mem_append_right _ (ih h)
    | cons₂ a h =>
      refine List.mem_append_left _ ?_
      exact List.mem_map.2 ⟨y, h.subset (List.mem_singleton.2 rfl), rfl⟩

theorem mem_detectRaw_of_mem_allPairs {now : String} {prices : List Quote}
    {A B : Quote} (hp : (A, B) ∈ allPairs prices ∨ (B, A) ∈ allPairs prices)
    {o : Opportunity} (ho : o ∈ evalDirection now A B) :
    o ∈ detectRaw now prices := by
  unfold detectRaw
  rcases hp with hp | hp
  · exact List.mem_flatMap.2 ⟨(A, B), hp, List.mem_append_left _ ho⟩
  · exact List.mem_flatMap.2 ⟨(B, A), hp, List.mem_append_right _ ho⟩

theorem exists_pair_of_mem_detectRaw {now : String} {prices : List Quote}
    {o : Opportunity} (h : o ∈ detectRaw now prices) :
    ∃ A B : Quote, ((A, B) ∈ allPairs prices ∨ (B, A) ∈ allPairs prices) ∧
      truthy A.ask = true ∧ truthy B.bid = true ∧
      oget A.ask < oget B.bid ∧
      threshold ≤ (oget B.bid - oget A.ask) / oget A.ask * 100 ∧
      o = mkOpportunity now A B := by
  unfold detectRaw at h
  obtain ⟨p, hp, ho⟩ := List.mem_flatMap.1 h
  rcases List.mem_append.1 ho with ho | ho
  · obtain ⟨h1, h2, h3, h4, h5⟩ := mem_evalDirection ho
    exact ⟨p.1, p.2, Or.inl hp, h1, h2, h3, h4, h5⟩
  · obtain ⟨h1, h2, h3, h4, h5⟩ := mem_evalDirection ho
    exact ⟨p.2, p.1, Or.inr hp, h1, h2, h3, h4, h5⟩

theorem mem_detect_iff_of_two_le {now : String} {prices : List Quote}
    (h2 : 2 ≤ prices.length) {o : Opportunity} :
    o ∈ detectArbitrageOpportunities now prices ↔ o ∈ detectRaw now prices := by
  unfold detectArbitrageOpportunities
  rw [if_neg (by omega)]
  exact List.mem_insertionSort oppLe

theorem exists_pair_of_mem_detect {now : String} {prices : List Quote}
    {o : Opportunity} (h : o ∈ detectArbitrageOpportunities now prices) :
    ∃ A B : Quote, ((A, B) ∈ allPairs prices ∨ (B, A) ∈ allPairs prices) ∧
      truthy A.ask = true ∧ truthy B.bid = true ∧
      oget A.ask < oget B.bid ∧
      threshold ≤ (oget B.bid - oget A.ask) / oget A.ask * 100 ∧
      o = mkOpportunity now A B := by
  unfold detectArbitrageOpportunities at h
  by_cases hl : prices.length < 2
  · rw [if_pos hl] at h
    exact absurd h (List.not_mem_nil o)
  · rw [if_neg hl] at h
    exact exists_pair_of_mem_detectRaw ((List.mem_insertionSort oppLe).1 h)

theorem mkOpportunity_mem_detect (now : String) {prices : List Quote} {A B : Quote}
    (hsub : [A, B].Sublist prices ∨ [B, A].Sublist prices)
    (h1 : truthy A.ask = true) (h2 : truthy B.bid = true)
    (h3 : oget A.ask < oget B.bid)
    (h4 : threshold ≤ (oget B.bid - oget A.ask) / oget A.ask * 100) :
    mkOpportunity now A B ∈ detectArbitrageOpportunities now prices := by
  have hlen : 2 ≤ prices.length := by
    rcases hsub with hs | hs <;> simpa using hs.length_le
  rw [mem_detect_iff_of_two_le hlen]
  have hmem : mkOpportunity now A B ∈ evalDirection now A B :=
    (evalDirection_eq_pos now h1 h2 h3 h4) ▸ List.mem_singleton.2 rfl
  refine mem_detectRaw_of_mem_allPairs ?_ hmem
  rcases hsub with hs | hs
  · exact Or.inl (sublist_pair_mem_allPairs hs)
  · exact Or.inr (sublist_pair_mem_allPairs hs)

/-! ### Claim theorems -/

/-- C1: for every ordered pair of distinct quotes (A, B) of the input list
whose ask/bid legs are present and positive with A.ask < B.bid and a gross
spread percentage at or above the threshold, the detector emits an
opportunity buying at A's ask and selling at B's bid, with
priceDifference equal to the gross spread B.bid - A.ask. -/
theorem claim_C1 (now : String) (prices : List Quote) (A B : Quote)
    (hpos : [A, B].Sublist prices ∨ [B, A].Sublist prices)
    (av bv : ℚ) (hA : A.ask = some av) (hB : B.bid = some bv)
    (hav : 0 < av) (hbv : 0 < bv) (hlt : av < bv)
    (hth : threshold ≤ (bv - av) / av * 100) :
    ∃ opp ∈ detectArbitrageOpportunities now prices,
      opp.exchangeFrom = A.exchange ∧ opp.exchangeTo = B.exchange ∧
      opp.priceFrom = av ∧ opp.priceTo = bv ∧
      opp.priceDifference = bv - av := by
  have hAv : oget A.ask = av := by rw [hA]; rfl
  have hBv : oget B.bid = bv := by rw [hB]; rfl
  have h1 : truthy A.ask = true := by
    rw [hA]; simpa [truthy] using hav.ne'
  have h2 : truthy B.bid = true := by
    rw [hB]; simpa [truthy] using hbv.ne'
  refine ⟨mkOpportunity now A B,
    mkOpportunity_mem_detect now hpos h1 h2 (by rw [hAv, hBv]; exact hlt)
      (by rw [hAv, hBv]; exact hth), ?_⟩
  refine ⟨rfl, rfl, hAv, hBv, ?_⟩
  show oget B.bid - oget A.ask = bv - av
  rw [hAv, hBv]

/-- Witness for C1 on a concrete two-quote list. -/
theorem claim_C1_witness :
    (0:ℚ) < 1000 ∧ (0:ℚ) < 1001 ∧ (1000:ℚ) < 1001 ∧
    threshold ≤ ((1001:ℚ) - 1000) / 1000 * 100 ∧
    ∃ opp ∈ detectArbitrageOpportunities "2024-01-01T00:00:00"
        [⟨"X", some 900, some 1000⟩, ⟨"Y", some 1001, some 1002⟩],
      opp.exchangeFrom = "X" ∧ opp.exchangeTo = "Y" ∧
      opp.priceFrom = 1000 ∧ opp.priceTo = 1001 ∧
      opp.priceDifference = 1001 - 1000 :=
  ⟨by norm_num, by norm_num, by norm_num, by norm_num [threshold],
    claim_C1 "2024-01-01T00:00:00" _ ⟨"X", some 900, some 1000⟩
      ⟨"Y", some 1001, some 1002⟩ (Or.inl (List.Sublist.refl _)) 1000 1001
      rfl rfl (by norm_num) (by norm_num) (by norm_num) (by norm_num [threshold])⟩

/-- C4: every emitted opportunity has a gross spread percentage at or above
the threshold, and the gate is inclusive: a direction whose gross spread
percentage equals the threshold exactly is emitted. -/
theorem claim_C4 (now : String) (prices : List Quote) :
    (∀ opp ∈ detectArbitrageOpportunities now prices,
      threshold ≤ opp.percentageDifference) ∧
    (∀ A B : Quote, ([A, B].Sublist prices ∨ [B, A].Sublist prices) →
      ∀ av bv : ℚ, A.ask = some av → B.bid = some bv → 0 < av → av < bv →
      (bv - av) / av * 100 = threshold →
      ∃ opp ∈ detectArbitrageOpportunities now prices,
        opp.exchangeFrom = A.exchange ∧ opp.exchangeTo = B.exchange ∧
        opp.percentageDifference = threshold) := by
  constructor
  · intro opp h
    obtain ⟨A, B, _, _, _, _, h4, rfl⟩ := exists_pair_of_mem_detect h
    exact h4
  · intro A B hpos av bv hA hB hav hlt hth
    have hAv : oget A.ask = av := by rw [hA]; rfl
    have hBv : oget B.bid = bv := by rw [hB]; rfl
    have h1 : truthy A.ask = true := by
      rw [hA]; simpa [truthy] using hav.ne'
    have h2 : truthy B.bid = true := by
      rw [hB]; simpa [truthy] using (hav.trans hlt).ne'
    refine ⟨mkOpportunity now A B,
      mkOpportunity_mem_detect now hpos h1 h2 (by rw [hAv, hBv]; exact hlt)
        (by rw [hAv, hBv, hth]), rfl, rfl, ?_⟩
    show (oget B.bid - oget A.ask) / oget A.ask * 100 = threshold
    rw [hAv, hBv, hth]

/-- Witness for C4: the exact-threshold pair (1000 ask, 1001 bid) has gross
spread percentage exactly 0.1 and is emitted. -/
theorem claim_C4_witness :
    (((1001:ℚ) - 1000) / 1000 * 100 = threshold) ∧
    ∃ opp ∈ detectArbitrageOpportunities "2024-01-01T00:00:00"
        [⟨"X", some 900, some 1000⟩, ⟨"Y", some 1001, some 1002⟩],
      opp.exchangeFrom = "X" ∧ opp.exchangeTo = "Y" ∧
      opp.percentageDifference = threshold :=
  ⟨by norm_num [threshold],
    (claim_C4 "2024-01-01T00:00:00"
        [⟨"X", some 900, some 1000⟩, ⟨"Y", some 1001, some 1002⟩]).2
      ⟨"X", some 900, some 1000⟩ ⟨"Y", some 1001, some 1002⟩
      (Or.inl (List.Sublist.refl _)) 1000 1001 rfl rfl (by norm_num) (by norm_num)
      (by norm_num [threshold])⟩

/-- C6: a quote whose ask is zero or negative is never the buy side of an
emitted opportunity: every emitted opportunity has a strictly positive buy
price (for zero asks the truthiness guard skips the direction, for negative
asks the gross spread percentage is negative and fails the gate), so no
division by a zero buy price ever reaches the output. -/
theorem claim_C6 (now : String) (prices : List Quote) :
    (∀ opp ∈ detectArbitrageOpportunities now prices, 0 < opp.priceFrom) ∧
    (∀ buyQ sellQ : Quote, oget buyQ.ask ≤ 0 →
      evalDirection now buyQ sellQ = []) := by
  have hskip : ∀ buyQ sellQ : Quote, oget buyQ.ask ≤ 0 →
      evalDirection now buyQ sellQ = [] := by
    intro buyQ sellQ hle
    by_cases h1 : truthy buyQ.ask = true
    · have hneg : oget buyQ.ask < 0 :=
        lt_of_le_of_ne hle (oget_ne_zero_of_truthy h1)
      by_cases hlt : oget buyQ.ask < oget sellQ.bid
      · have hgate : ¬ threshold ≤
            (oget sellQ.bid - oget buyQ.ask) / oget buyQ.ask * 100 := by
          have hdiff : 0 < oget sellQ.bid - oget buyQ.ask := sub_pos.2 hlt
          have hneg2 : (oget sellQ.bid - oget buyQ.ask) / oget buyQ.ask * 100 < 0 :=
            mul_neg_of_neg_of_pos (div_neg_of_pos_of_neg hdiff hneg) (by norm_num)
          have ht : (0:ℚ) < threshold := by norm_num [threshold]
          exact not_le.2 (by linarith)
        simp [evalDirection, hgate]
      · simp [evalDirection, hlt]
    · simp [evalDirection, h1]
  refine ⟨?_, hskip⟩
  intro opp h
  obtain ⟨A, B, _, h1, _, h3, h4, rfl⟩ := exists_pair_of_mem_detect h
  show 0 < oget A.ask
  by_contra hle
  push_neg at hle
  have hneg : oget A.ask < 0 := lt_of_le_of_ne hle (oget_ne_zero_of_truthy h1)
  have hdiff : 0 < oget B.bid - oget A.ask := sub_pos.2 h3
  have hneg2 : (oget B.bid - oget A.ask) / oget A.ask * 100 < 0 :=
    mul_neg_of_neg_of_pos (div_neg_of_pos_of_neg hdiff hneg) (by norm_num)
  have ht : (0:ℚ) < threshold := by norm_num [threshold]
  linarith

/-- Witness for C6: a concrete emitted opportunity has positive buy price,
and a concrete direction buying at a zero ask is skipped. -/
theorem claim_C6_witness :
    (0 < (mkOpportunity "2024-01-01T00:00:00" ⟨"X", some 900, some 1000⟩
      ⟨"Y", some 1001, some 1002⟩).priceFrom) ∧
    (oget (⟨"Z", some 800, some 0⟩ : Quote).ask ≤ 0 ∧
      evalDirection "2024-01-01T00:00:00" ⟨"Z", some 800, some 0⟩
        ⟨"Y", some 1001, some 1002⟩ = []) :=
  ⟨(claim_C6 "2024-01-01T00:00:00"
      [⟨"X", some 900, some 1000⟩, ⟨"Y", some 1001, some 1002⟩]).1 _
    (mkOpportunity_mem_detect "2024-01-01T00:00:00"
      (Or.inl (List.Sublist.refl _)) (by simp [truthy, oget])
      (by simp [truthy, oget]) (by norm_num [oget]) (by norm_num [oget, threshold])),
    by norm_num [oget],
    (claim_C6 "2024-01-01T00:00:00" []).2 ⟨"Z", some 800, some 0⟩
      ⟨"Y", some 1001, some 1002⟩ (by norm_num [oget])⟩

/-- C9: the truthiness guard treats a bid or ask equal to 0 exactly like an
absent value, so no emitted opportunity ever has a zero buy price (its buy
quote's ask) or a zero sell price (its sell quote's bid). -/
theorem claim_C9 (now : String) (prices : List Quote) :
    ∀ opp ∈ detectArbitrageOpportunities now prices,
      opp.priceFrom ≠ 0 ∧ opp.priceTo ≠ 0 := by
  intro opp h
  obtain ⟨A, B, _, h1, h2, _, _, rfl⟩ := exists_pair_of_mem_detect h
  exact ⟨oget_ne_zero_of_truthy h1, oget_ne_zero_of_truthy h2⟩

/-- Witness for C9 on a concrete emitted opportunity. -/
theorem claim_C9_witness :
    (mkOpportunity "2024-01-01T00:00:00" ⟨"X", some 900, some 1000⟩
        ⟨"Y", some 1001, some 1002⟩).priceFrom ≠ 0 ∧
    (mkOpportunity "2024-01-01T00:00:00" ⟨"X", some 900, some 1000⟩
        ⟨"Y", some 1001, some 1002⟩).priceTo ≠ 0 :=
  claim_C9 "2024-01-01T00:00:00"
    [⟨"X", some 900, some 1000⟩, ⟨"Y", some 1001, some 1002⟩] _
    (mkOpportunity_mem_detect "2024-01-01T00:00:00"
      (Or.inl (List.Sublist.refl _)) (by simp [truthy, oget])
      (by simp [truthy, oget]) (by norm_num [oget]) (by norm_num [oget, threshold]))

/-- Algebraic shape of `calculateArbitrageCosts`: the gross profit, the
exactness of net profit as gross minus total costs, and the four cost
components named by the spec. -/
theorem arbitrageCosts_spec (bE sE : String) (q bP sP : ℚ) :
    (calculateArbitrageCosts bE sE q bP sP).grossProfit = (sP - bP) * q ∧
    (calculateArbitrageCosts bE sE q bP sP).netProfit =
      (calculateArbitrageCosts bE sE q bP sP).grossProfit -
        (calculateArbitrageCosts bE sE q bP sP).totalCosts.total ∧
    (calculateArbitrageCosts bE sE q bP sP).totalCosts.total =
      (calculateArbitrageCosts bE sE q bP sP).totalCosts.buyTradingFee +
        (calculateArbitrageCosts bE sE q bP sP).totalCosts.sellTradingFee +
        (calculateArbitrageCosts bE sE q bP sP).totalCosts.jpyWithdrawalFee +
        (calculateArbitrageCosts bE sE q bP sP).totalCosts.btcTransferCost ∧
    (calculateArbitrageCosts bE sE q bP sP).totalCosts.jpyWithdrawalFee =
      getWithdrawalFee sE .jpy ∧
    (calculateArbitrageCosts bE sE q bP sP).totalCosts.btcTransferCost =
      (getWithdrawalFee bE .btc + networkFee) * bP := by
  refine ⟨?_, ?_, rfl, rfl, rfl⟩ <;>
    simp only [calculateArbitrageCosts, calculateTradingCosts] <;> ring

/-- C2: for every emitted opportunity, netProfit equals grossProfit minus
total fees exactly, where grossProfit is (sellPrice - buyPrice) times the
reference quantity 1 and total fees is the sum of the buy trading fee, the
sell trading fee, the sell exchange's JPY withdrawal fee and the BTC
transfer cost (buy exchange's BTC withdrawal fee plus network fee, valued
in JPY at the buy price), as computed by calculateArbitrageCosts at
quantity 1 and the opportunity's buy/sell prices. -/
theorem claim_C2 (now : String) (prices : List Quote) :
    ∀ opp ∈ detectArbitrageOpportunities now prices,
      opp.netProfit = (opp.priceTo - opp.priceFrom) * 1 - opp.totalFees ∧
      opp.totalFees = (calculateArbitrageCosts opp.exchangeFrom opp.exchangeTo
        1 opp.priceFrom opp.priceTo).totalCosts.total ∧
      (calculateArbitrageCosts opp.exchangeFrom opp.exchangeTo
          1 opp.priceFrom opp.priceTo).totalCosts.total =
        (calculateArbitrageCosts opp.exchangeFrom opp.exchangeTo
          1 opp.priceFrom opp.priceTo).totalCosts.buyTradingFee +
        (calculateArbitrageCosts opp.exchangeFrom opp.exchangeTo
          1 opp.priceFrom opp.priceTo).totalCosts.sellTradingFee +
        (calculateArbitrageCosts opp.exchangeFrom opp.exchangeTo
          1 opp.priceFrom opp.priceTo).totalCosts.jpyWithdrawalFee +
        (calculateArbitrageCosts opp.exchangeFrom opp.exchangeTo
          1 opp.priceFrom opp.priceTo).totalCosts.btcTransferCost ∧
      (calculateArbitrageCosts opp.exchangeFrom opp.exchangeTo
          1 opp.priceFrom opp.priceTo).totalCosts.jpyWithdrawalFee =
        getWithdrawalFee opp.exchangeTo .jpy ∧
      (calculateArbitrageCosts opp.exchangeFrom opp.exchangeTo
          1 opp.priceFrom opp.priceTo).totalCosts.btcTransferCost =
        (getWithdrawalFee opp.exchangeFrom .btc + networkFee) *
          opp.priceFrom := by
  intro opp h
  obtain ⟨A, B, _, _, _, _, _, rfl⟩ := exists_pair_of_mem_detect h
  obtain ⟨hg, hn, ht, hj, hb⟩ :=
    arbitrageCosts_spec A.exchange B.exchange 1 (oget A.ask) (oget B.bid)
  refine ⟨?_, rfl, ht, hj, hb⟩
  show (calculateArbitrageCosts A.exchange B.exchange 1 (oget A.ask)
      (oget B.bid)).netProfit =
    (oget B.bid - oget A.ask) * 1 -
      (calculateArbitrageCosts A.exchange B.exchange 1 (oget A.ask)
        (oget B.bid)).totalCosts.total
  rw [hn, hg]

/-- Witness for C2 on a concrete emitted opportunity. -/
theorem claim_C2_witness :
    (mkOpportunity "2024-01-01T00:00:00" ⟨"X", some 900, some 1000⟩
        ⟨"Y", some 1001, some 1002⟩).netProfit =
      ((mkOpportunity "2024-01-01T00:00:00" ⟨"X", some 900, some 1000⟩
          ⟨"Y", some 1001, some 1002⟩).priceTo -
        (mkOpportunity "2024-01-01T00:00:00" ⟨"X", some 900, some 1000⟩
          ⟨"Y", some 1001, some 1002⟩).priceFrom) * 1 -
      (mkOpportunity "2024-01-01T00:00:00" ⟨"X", some 900, some 1000⟩
        ⟨"Y", some 1001, some 1002⟩).totalFees :=
  ((claim_C2 "2024-01-01T00:00:00"
      [⟨"X", some 900, some 1000⟩, ⟨"Y", some 1001, some 1002⟩]) _
    (mkOpportunity_mem_detect "2024-01-01T00:00:00"
      (Or.inl (List.Sublist.refl _)) (by simp [truthy, oget])
      (by simp [truthy, oget]) (by norm_num [oget])
      (by norm_num [oget, threshold]))).1

/-- A pair visited by the double loop consists of two quotes at distinct
positions, so a predicate holding of both legs holds at least twice over
the input list. -/
theorem two_le_countP_of_mem_allPairs {p : α → Bool} :
    ∀ {l : List α} {pr : α × α}, pr ∈ allPairs l → p pr.1 = true →
      p pr.2 = true → 2 ≤ l.countP p := by
  intro l
  induction l with
  | nil => intro pr h _ _; simp [allPairs] at h
  | cons x xs ih =>
    intro pr h h1 h2
    rw [allPairs] at h
    rcases List.mem_append.1 h with h | h
    · obtain ⟨y, hy, rfl⟩ := List.mem_map.1 h
      rw [List.countP_cons_of_pos _ _ h1]
      have hpos : 0 < xs.countP p := List.countP_pos_iff.2 ⟨y, hy, h2⟩
      omega
    · have := ih h h1 h2
      rw [List.countP_cons]
      omega

/-- C8: a quote list of length 0 or 1 yields the empty opportunity list,
and more generally whenever fewer than 2 quotes have any usable (truthy)
bid or ask, the detector returns the empty list. -/
theorem claim_C8 (now : String) (prices : List Quote) :
    (prices.length < 2 → detectArbitrageOpportunities now prices = []) ∧
    (prices.countP usable < 2 →
      detectArbitrageOpportunities now prices = []) := by
  constructor
  · intro h
    unfold detectArbitrageOpportunities
    rw [if_pos h]
  · intro h
    refine List.eq_nil_iff_forall_not_mem.2 fun o ho => ?_
    obtain ⟨A, B, hp, h1, h2, _, _, _⟩ := exists_pair_of_mem_detect ho
    have hA : usable A = true := by simp [usable, h1]
    have hB : usable B = true := by simp [usable, h2]
    rcases hp with hp | hp
    · exact absurd (two_le_countP_of_mem_allPairs hp hA hB) (by omega)
    · exact absurd (two_le_countP_of_mem_allPairs hp hB hA) (by omega)

/-- Witness for C8 on the empty list and on a list of two unusable quotes. -/
theorem claim_C8_witness :
    ([] : List Quote).length < 2 ∧
    detectArbitrageOpportunities "2024-01-01T00:00:00" [] = [] ∧
    ([⟨"X", none, none⟩, ⟨"Y", none, none⟩] : List Quote).countP usable < 2 ∧
    detectArbitrageOpportunities "2024-01-01T00:00:00"
      [⟨"X", none, none⟩, ⟨"Y", none, none⟩] = [] :=
  ⟨by norm_num,
    (claim_C8 "2024-01-01T00:00:00" []).1 (by norm_num),
    by simp [usable, truthy],
    (claim_C8 "2024-01-01T00:00:00"
      [⟨"X", none, none⟩, ⟨"Y", none, none⟩]).2 (by simp [usable, truthy])⟩

/-- Every schedule stored in the fee table has nonnegative withdrawal
fees. -/
theorem table_withdrawal_nonneg {e : String} {f : FeeSchedule}
    (h : exchangeFees e = some f) :
    0 ≤ f.withdrawalFee.jpy ∧ 0 ≤ f.withdrawalFee.btc := by
  unfold exchangeFees at h
  split_ifs at h
  all_goals injection h with h2
  all_goals subst h2
  all_goals exact ⟨by norm_num, by norm_num⟩

/-- Withdrawal fees are nonnegative for every exchange name, known or
unknown. -/
theorem getWithdrawalFee_nonneg (e : String) (c : Currency) :
    0 ≤ getWithdrawalFee e c := by
  unfold getWithdrawalFee
  cases h : exchangeFees e with
  | none => cases c <;> norm_num
  | some f =>
    obtain ⟨h1, h2⟩ := table_withdrawal_nonneg h
    cases c
    · exact h1
    · exact h2

/-- C10: for every pair of exchange names, nonnegative quantity and
nonnegative prices, every component of totalCosts and the total itself are
nonnegative; trading fees are absolute values, so even the negative maker
rebate rates of the table cannot drive total fees negative. -/
theorem claim_C10 (bE sE : String) (q bP sP : ℚ)
    (hq : 0 ≤ q) (hb : 0 ≤ bP) (hs : 0 ≤ sP) :
    0 ≤ (calculateArbitrageCosts bE sE q bP sP).totalCosts.buyTradingFee ∧
    0 ≤ (calculateArbitrageCosts bE sE q bP sP).totalCosts.sellTradingFee ∧
    0 ≤ (calculateArbitrageCosts bE sE q bP sP).totalCosts.jpyWithdrawalFee ∧
    0 ≤ (calculateArbitrageCosts bE sE q bP sP).totalCosts.btcTransferCost ∧
    0 ≤ (calculateArbitrageCosts bE sE q bP sP).totalCosts.total := by
  have hbuy : 0 ≤ (calculateArbitrageCosts bE sE q bP sP).totalCosts.buyTradingFee :=
    abs_nonneg _
  have hsell : 0 ≤ (calculateArbitrageCosts bE sE q bP sP).totalCosts.sellTradingFee :=
    abs_nonneg _
  have hjpy : 0 ≤ (calculateArbitrageCosts bE sE q bP sP).totalCosts.jpyWithdrawalFee :=
    getWithdrawalFee_nonneg sE .jpy
  have hbtc : 0 ≤ (calculateArbitrageCosts bE sE q bP sP).totalCosts.btcTransferCost := by
    show 0 ≤ (getWithdrawalFee bE .btc + networkFee) * bP
    exact mul_nonneg
      (add_nonneg (getWithdrawalFee_nonneg bE .btc) (by norm_num [networkFee])) hb
  refine ⟨hbuy, hsell, hjpy, hbtc, ?_⟩
  show 0 ≤ (calculateArbitrageCosts bE sE q bP sP).totalCosts.buyTradingFee +
    (calculateArbitrageCosts bE sE q bP sP).totalCosts.sellTradingFee +
    (calculateArbitrageCosts bE sE q bP sP).totalCosts.jpyWithdrawalFee +
    (calculateArbitrageCosts bE sE q bP sP).totalCosts.btcTransferCost
  positivity

/-- Witness for C10 at quantity 1, prices 2 and 3, one unknown exchange. -/
theorem claim_C10_witness :
    (0:ℚ) ≤ 1 ∧ (0:ℚ) ≤ 2 ∧ (0:ℚ) ≤ 3 ∧
    (0 ≤ (calculateArbitrageCosts "bitFlyer" "NewEx" 1 2 3).totalCosts.buyTradingFee ∧
     0 ≤ (calculateArbitrageCosts "bitFlyer" "NewEx" 1 2 3).totalCosts.sellTradingFee ∧
     0 ≤ (calculateArbitrageCosts "bitFlyer" "NewEx" 1 2 3).totalCosts.jpyWithdrawalFee ∧
     0 ≤ (calculateArbitrageCosts "bitFlyer" "NewEx" 1 2 3).totalCosts.btcTransferCost ∧
     0 ≤ (calculateArbitrageCosts "bitFlyer" "NewEx" 1 2 3).totalCosts.total) :=
  ⟨by norm_num, by norm_num, by norm_num,
    claim_C10 "bitFlyer" "NewEx" 1 2 3 (by norm_num) (by norm_num) (by norm_num)⟩

/-- C5: an exchange missing from the fee table resolves to the documented
fallback schedule (taker rate 0.001, JPY withdrawal fee 500, BTC withdrawal
fee 0.0005), never a zero-fee schedule, and calculateArbitrageCosts uses
exactly these fallback values on either leg, so an unknown exchange still
yields a computed net profit without any failure path. -/
theorem claim_C5 (e : String) (he : exchangeFees e = none) :
    getTradingFee e = ⟨0.001, 0.001⟩ ∧
    getWithdrawalFee e .jpy = 500 ∧
    getWithdrawalFee e .btc = 0.0005 ∧
    (getTradingFee e).taker ≠ 0 ∧
    getWithdrawalFee e .jpy ≠ 0 ∧
    getWithdrawalFee e .btc ≠ 0 ∧
    (∀ (sE : String) (q bP sP : ℚ),
      (calculateArbitrageCosts e sE q bP sP).totalCosts.buyTradingFee =
        |q * bP * 0.001| ∧
      (calculateArbitrageCosts e sE q bP sP).totalCosts.btcTransferCost =
        (0.0005 + networkFee) * bP) ∧
    (∀ (bE : String) (q bP sP : ℚ),
      (calculateArbitrageCosts bE e q bP sP).totalCosts.sellTradingFee =
        |q * sP * 0.001| ∧
      (calculateArbitrageCosts bE e q bP sP).totalCosts.jpyWithdrawalFee =
        500) := by
  have h1 : getTradingFee e = ⟨0.001, 0.001⟩ := by
    unfold getTradingFee; rw [he]
  have h2 : getWithdrawalFee e .jpy = 500 := by
    unfold getWithdrawalFee; rw [he]
  have h3 : getWithdrawalFee e .btc = 0.0005 := by
    unfold getWithdrawalFee; rw [he]
  refine ⟨h1, h2, h3, by rw [h1]; norm_num, by rw [h2]; norm_num,
    by rw [h3]; norm_num, ?_, ?_⟩
  · intro sE q bP sP
    constructor
    · show |q * bP * (getTradingFee e).taker| = |q * bP * 0.001|
      rw [h1]
    · show (getWithdrawalFee e .btc + networkFee) * bP =
        (0.0005 + networkFee) * bP
      rw [h3]
  · intro bE q bP sP
    constructor
    · show |q * sP * (getTradingFee e).taker| = |q * sP * 0.001|
      rw [h1]
    · exact h2

/-- Witness for C5 on a concrete exchange name absent from the table. -/
theorem claim_C5_witness :
    exchangeFees "Unknown" = none ∧
    getTradingFee "Unknown" = ⟨0.001, 0.001⟩ ∧
    getWithdrawalFee "Unknown" .jpy = 500 ∧
    getWithdrawalFee "Unknown" .btc = 0.0005 :=
  ⟨by simp [exchangeFees],
    (claim_C5 "Unknown" (by simp [exchangeFees])).1,
    (claim_C5 "Unknown" (by simp [exchangeFees])).2.1,
    (claim_C5 "Unknown" (by simp [exchangeFees])).2.2.1⟩

/-! ### Stability of the final sort -/

theorem filter_orderedInsert_pos {r : α → α → Prop} [DecidableRel r]
    (p : α → Bool) (b : α) (hb : p b = true) :
    ∀ l : List α, (∀ a ∈ l, p a = true → r b a) →
      (List.orderedInsert r b l).filter p = b :: l.filter p := by
  intro l
  induction l with
  | nil => intro _; simp [List.orderedInsert, hb]
  | cons a l ih =>
    intro hcompat
    by_cases hr : r b a
    · rw [List.orderedInsert, if_pos hr, List.filter_cons_of_pos hb]
    · rw [List.orderedInsert, if_neg hr]
      have hpa : p a = false := by
        cases hp : p a with
        | true => exact absurd (hcompat a (List.mem_cons_self a l) hp) hr
        | false => rfl
      rw [List.filter_cons_of_neg (by simp [hpa]),
        List.filter_cons_of_neg (by simp [hpa])]
      exact ih fun x hx hpx => hcompat x (List.mem_cons_of_mem a hx) hpx

theorem filter_orderedInsert_neg {r : α → α → Prop} [DecidableRel r]
    (p : α → Bool) (b : α) (hb : p b = false) :
    ∀ l : List α, (List.orderedInsert r b l).filter p = l.filter p := by
  intro l
  induction l with
  | nil => simp [List.orderedInsert, hb]
  | cons a l ih =>
    by_cases hr : r b a
    · rw [List.orderedInsert, if_pos hr, List.filter_cons_of_neg (by simp [hb])]
    · rw [List.orderedInsert, if_neg hr]
      cases hp : p a with
      | true =>
        rw [List.filter_cons_of_pos hp, List.filter_cons_of_pos hp, ih]
      | false =>
        rw [List.filter_cons_of_neg (by simp [hp]),
          List.filter_cons_of_neg (by simp [hp]), ih]

/-- Insertion sort does not reorder elements that the comparator cannot
distinguish: filtering by any predicate that forces mutual comparability
commutes with sorting.  This is the stability of the detector's sort. -/
theorem filter_insertionSort {r : α → α → Prop} [DecidableRel r]
    (p : α → Bool) (H : ∀ x y, p x = true → p y = true → r x y) :
    ∀ l : List α, (List.insertionSort r l).filter p = l.filter p := by
  intro l
  induction l with
  | nil => rfl
  | cons b l ih =>
    rw [List.insertionSort]
    cases hb : p b with
    | true =>
      rw [filter_orderedInsert_pos p b hb _
          fun a _ hpa => H b a hb hpa,
        ih, List.filter_cons_of_pos hb]
    | false =>
      rw [filter_orderedInsert_neg p b hb, ih,
        List.filter_cons_of_neg (by simp [hb])]

/-- C3: the returned list is totally ordered with profitable-after-fees
opportunities first and net profit descending within each profitability
class, and the sort is stable: for every value of the two sort keys, the
opportunities carrying exactly those keys appear in the output in their
original detection order (the order of the unsorted detectRaw list). -/
theorem claim_C3 (now : String) (prices : List Quote) :
    List.Pairwise (fun x y =>
      (x.isProfitableAfterFees = true ∧ y.isProfitableAfterFees = false) ∨
      (x.isProfitableAfterFees = y.isProfitableAfterFees ∧
        y.netProfit ≤ x.netProfit))
      (detectArbitrageOpportunities now prices) ∧
    ∀ (f : Bool) (np : ℚ),
      (detectArbitrageOpportunities now prices).filter
          (fun o => decide (o.isProfitableAfterFees = f ∧ o.netProfit = np)) =
        (detectRaw now prices).filter
          (fun o => decide (o.isProfitableAfterFees = f ∧ o.netProfit = np)) := by
  unfold detectArbitrageOpportunities
  by_cases hl : prices.length < 2
  · rw [if_pos hl]
    have hraw : detectRaw now prices = [] := by
      refine List.eq_nil_iff_forall_not_mem.2 fun o ho => ?_
      obtain ⟨A, B, hp, _, _, _, _, _⟩ := exists_pair_of_mem_detectRaw ho
      have hlen : ∀ pr : Quote × Quote, pr ∈ allPairs prices → 2 ≤ prices.length := by
        intro pr hpr
        exact two_le_countP_of_mem_allPairs (p := fun _ => true) hpr rfl rfl
          |>.trans_eq (by simp [List.countP_true])
      rcases hp with hp | hp
      · exact absurd (hlen _ hp) (by omega)
      · exact absurd (hlen _ hp) (by omega)
    rw [hraw]
    exact ⟨List.Pairwise.nil, fun _ _ => rfl⟩
  · rw [if_neg hl]
    constructor
    · refine List.Pairwise.imp ?_
        (List.sorted_insertionSort oppLe (detectRaw now prices))
      intro a b hab
      unfold oppLe at hab
      by_cases h : a.isProfitableAfterFees = b.isProfitableAfterFees
      · rw [if_pos h] at hab
        exact Or.inr ⟨h, hab⟩
      · rw [if_neg h] at hab
        refine Or.inl ⟨hab, ?_⟩
        cases hb : b.isProfitableAfterFees with
        | false => rfl
        | true => exact absurd (hab.trans hb.symm) h
    · intro f np
      refine filter_insertionSort _ ?_ (detectRaw now prices)
      intro x y hx hy
      simp only [decide_eq_true_eq] at hx hy
      unfold oppLe
      rw [if_pos (hx.1.trans hy.1.symm), hx.2, hy.2]

/-- Witness for C3: the ranking holds on a concrete three-quote run. -/
theorem claim_C3_witness :
    List.Pairwise (fun x y =>
      (x.isProfitableAfterFees = true ∧ y.isProfitableAfterFees = false) ∨
      (x.isProfitableAfterFees = y.isProfitableAfterFees ∧
        y.netProfit ≤ x.netProfit))
      (detectArbitrageOpportunities "2024-01-01T00:00:00"
        [⟨"X", some 900, some 1000⟩, ⟨"Y", some 1001, some 1002⟩,
          ⟨"Z", some 1500, some 1600⟩]) :=
  (claim_C3 "2024-01-01T00:00:00"
    [⟨"X", some 900, some 1000⟩, ⟨"Y", some 1001, some 1002⟩,
      ⟨"Z", some 1500, some 1600⟩]).1

/-! ### Determinism up to the clock (C7) -/

theorem clearTimestamp_mkOpportunity (now : String) (A B : Quote) :
    clearTimestamp (mkOpportunity now A B) = mkOpportunity "" A B := rfl

theorem evalDirection_eq_nil_of_not_lt (now : String) {buyQ sellQ : Quote}
    (h : ¬ oget buyQ.ask < oget sellQ.bid) :
    evalDirection now buyQ sellQ = [] := by
  simp [evalDirection, h]

theorem map_clearTimestamp_evalDirection (now : String) (A B : Quote) :
    (evalDirection now A B).map clearTimestamp = evalDirection "" A B := by
  simp only [evalDirection, apply_ite (List.map clearTimestamp),
    List.map_cons, List.map_nil, clearTimestamp_mkOpportunity]

theorem map_clearTimestamp_detectRaw (now : String) (prices : List Quote) :
    (detectRaw now prices).map clearTimestamp = detectRaw "" prices := by
  unfold detectRaw
  rw [List.map_flatMap]
  congr 1
  funext p
  rw [List.map_append, map_clearTimestamp_evalDirection,
    map_clearTimestamp_evalDirection]

/-- Counterexample helper: a two-quote list with exactly one viable
direction evaluates to that single opportunity record. -/
theorem detect_two_eval (now : String) (A B : Quote)
    (h1 : truthy A.ask = true) (h2 : truthy B.bid = true)
    (h3 : oget A.ask < oget B.bid)
    (h4 : threshold ≤ (oget B.bid - oget A.ask) / oget A.ask * 100)
    (hno : evalDirection now B A = []) :
    detectArbitrageOpportunities now [A, B] = [mkOpportunity now A B] := by
  have hpairs : allPairs [A, B] = [(A, B)] := rfl
  unfold detectArbitrageOpportunities
  rw [if_neg (by norm_num)]
  unfold detectRaw
  rw [hpairs]
  simp only [List.flatMap_cons, List.flatMap_nil, List.append_nil]
  rw [evalDirection_eq_pos now h1 h2 h3 h4, hno, List.append_nil]
  simp [List.insertionSort, List.orderedInsert]

/-- Counterexample to C7 as stated: the identical quote list run at two
different clock readings yields lists differing in the timestamp field,
because the detector stamps each opportunity with the current wall-clock
time, which is not among the claimed determinism inputs. -/
theorem claim_C7_counterexample :
    detectArbitrageOpportunities "2024-01-01T00:00:00"
      [⟨"X", some 900, some 1000⟩, ⟨"Y", some 1001, some 1002⟩] ≠
    detectArbitrageOpportunities "2024-01-01T00:00:05"
      [⟨"X", some 900, some 1000⟩, ⟨"Y", some 1001, some 1002⟩] := by
  rw [detect_two_eval "2024-01-01T00:00:00" ⟨"X", some 900, some 1000⟩
      ⟨"Y", some 1001, some 1002⟩ (by simp [truthy]) (by simp [truthy])
      (by norm_num [oget]) (by norm_num [oget, threshold])
      (evalDirection_eq_nil_of_not_lt _ (by norm_num [oget])),
    detect_two_eval "2024-01-01T00:00:05" ⟨"X", some 900, some 1000⟩
      ⟨"Y", some 1001, some 1002⟩ (by simp [truthy]) (by simp [truthy])
      (by norm_num [oget]) (by norm_num [oget, threshold])
      (evalDirection_eq_nil_of_not_lt _ (by norm_num [oget]))]
  intro h
  injection h with h1 _
  exact absurd (congrArg Opportunity.timestamp h1) (by simp [mkOpportunity])

/-- C7 amended: the detector is deterministic in the quote list and the
static fee table up to the timestamp field: two runs at arbitrary clock
readings agree on every opportunity, every field except timestamp, and on
the order of the list. -/
theorem claim_C7_amended (t1 t2 : String) (prices : List Quote) :
    (detectArbitrageOpportunities t1 prices).map clearTimestamp =
    (detectArbitrageOpportunities t2 prices).map clearTimestamp := by
  have key : ∀ t : String,
      (detectArbitrageOpportunities t prices).map clearTimestamp =
      (if prices.length < 2 then []
        else List.insertionSort oppLe (detectRaw "" prices)) := by
    intro t
    unfold detectArbitrageOpportunities
    by_cases hl : prices.length < 2
    · rw [if_pos hl, if_pos hl]
      rfl
    · rw [if_neg hl, if_neg hl,
        List.map_insertionSort oppLe oppLe clearTimestamp
          (detectRaw t prices) (fun a _ b _ => Iff.rfl),
        map_clearTimestamp_detectRaw]
  rw [key t1, key t2]

end BtcArb
